import Mathlib

/-!
Verification of the Domapus data-pipeline scripts
(`scripts/update-market-data.py` and relatives).

The pipeline's values, records and transforms are shallowly embedded:
Python floats that always carry a real number are modelled as `ℚ`
(float NaN is a separate `PyVal` constructor), Python `None` and strings
as dedicated constructors, dicts as association lists, and exceptions as
`Except`.
-/

set_option autoImplicit false

namespace Domapus

/-- Python's `round(x, n)` tie-to-even integer rounding, on exact rationals.
`evenInt` stands in for the parity test on the floor. -/
def evenInt (n : ℤ) : Bool := n % 2 = 0

/-- Round a rational to the nearest integer, ties to even
(the behaviour of Python's builtin `round` on exact values). -/
def roundHalfEven (x : ℚ) : ℤ :=
  let f : ℤ := ⌊x⌋
  let r : ℚ := x - f
  if r < 1/2 then f
  else if 1/2 < r then f + 1
  else if evenInt f then f else f + 1

/-- Python `round(x, n)`: round to `n` decimal digits, ties to even. -/
def pyRound (x : ℚ) (n : ℕ) : ℚ :=
  (roundHalfEven (x * 10 ^ n) : ℚ) / 10 ^ n

/-- Python `int(x)` on a float: truncation toward zero. -/
def pyTrunc (q : ℚ) : ℤ :=
  if 0 ≤ q then ⌊q⌋ else ⌈q⌉

/-- A Python value as it flows through the pipeline: `None`, a float NaN,
a real-valued float (exact rational model), a string, or a pandas
`Timestamp` (year, month, day). -/
inductive PyVal : Type where
  | none : PyVal
  | nan : PyVal
  | num : ℚ → PyVal
  | str : String → PyVal
  | date : ℕ → ℕ → ℕ → PyVal
  deriving DecidableEq, Repr

/-- Does `pat` occur at the start of `text`? -/
def listStartsWith : List Char → List Char → Bool
  | [], _ => true
  | _ :: _, [] => false
  | p :: ps, c :: cs => p == c && listStartsWith ps cs

/-- Does `pat` occur as a contiguous sublist of the second argument?
Models Python's `pat in s` on strings. -/
def listContains (pat : List Char) : List Char → Bool
  | [] => listStartsWith pat []
  | c :: cs => listStartsWith pat (c :: cs) || listContains pat cs

/-- Python's `pat in hay` substring test. -/
def strContains (hay pat : String) : Bool := listContains pat.toList hay.toList

def allDigits (l : List Char) : Bool := l.all Char.isDigit

def digitsVal (l : List Char) : ℕ := l.foldl (fun a c => a * 10 + (c.toNat - 48)) 0

/-- Parse an unsigned decimal literal (`"12"`, `"12.5"`, `".5"`, `"12."`). -/
def parseUnsigned (l : List Char) : Option ℚ :=
  match l.splitOn '.' with
  | [ip] => if ip ≠ [] ∧ allDigits ip then some ((digitsVal ip : ℕ) : ℚ) else Option.none
  | [ip, fp] =>
      if (ip ≠ [] ∨ fp ≠ []) ∧ allDigits ip ∧ allDigits fp then
        some (((digitsVal ip : ℕ) : ℚ) + ((digitsVal fp : ℕ) : ℚ) / 10 ^ fp.length)
      else Option.none
  | _ => Option.none

/-- Python's `float()` applied to a string: strip spaces, optional sign,
decimal literal; anything else raises `ValueError` (`Option.none` here).
Exponent/inf/nan spellings are not modelled — no pipeline value uses them. -/
def pyFloatOfString (s : String) : Option ℚ :=
  let l := ((s.toList.dropWhile (· = ' ')).reverse.dropWhile (· = ' ')).reverse
  match l with
  | '-' :: rest => (parseUnsigned rest).map Neg.neg
  | '+' :: rest => parseUnsigned rest
  | _ => parseUnsigned l

/-- Zero-pad the decimal rendering of `n` to width `w`. -/
def padNum (w n : ℕ) : String :=
  let s := toString n
  String.mk (List.replicate (w - s.length) '0') ++ s

/-- `Timestamp.strftime('%Y-%m-%d')`. -/
def fmtDate (y m d : ℕ) : String := padNum 4 y ++ "-" ++ padNum 2 m ++ "-" ++ padNum 2 d

/-- Python `str(val)` for the values the `period_end` fallback branch can
see (strings in practice; the other renderings are best-effort and are
exercised by no claim). -/
def pyStr : PyVal → String
  | .str s => s
  | .num q => toString q
  | .date y m d => fmtDate y m d
  | .none => "None"
  | .nan => "nan"

/-- Python slice `s[:10]`. -/
def strTake10 (s : String) : String := String.mk (s.toList.take 10)

/-- Python `float(val)` as called inside the formatter's `try:` block
(`None`, NaN and `""` have been filtered before the call): floats convert
to themselves, strings parse as decimal literals (`ValueError` when
unparseable), and `Timestamp`s raise `TypeError`. -/
def pyFloat : PyVal → Except Unit ℚ
  | .num q => .ok q
  | .str s =>
      match pyFloatOfString s with
      | some q => .ok q
      | Option.none => .error ()
  | _ => .error ()

/-- The fixed output field list of `update-market-data.py` (`key_order`). -/
def key_order : List String :=
  ["city", "county", "state", "metro", "lat", "lng", "period_end",
   "zhvi", "zhvi_mom", "zhvi_yoy",
   "median_sale_price", "median_sale_price_mom", "median_sale_price_yoy",
   "median_list_price", "median_list_price_mom", "median_list_price_yoy",
   "median_ppsf", "median_ppsf_mom", "median_ppsf_yoy",
   "homes_sold", "homes_sold_mom", "homes_sold_yoy",
   "pending_sales", "pending_sales_mom", "pending_sales_yoy",
   "new_listings", "new_listings_mom", "new_listings_yoy",
   "inventory", "inventory_mom", "inventory_yoy",
   "median_dom", "median_dom_mom", "median_dom_yoy",
   "avg_sale_to_list_ratio", "avg_sale_to_list_mom", "avg_sale_to_list_ratio_yoy",
   "sold_above_list", "sold_above_list_mom", "sold_above_list_yoy",
   "off_market_in_two_weeks", "off_market_in_two_weeks_mom", "off_market_in_two_weeks_yoy"]

/-- Substring markers selecting the ×100 percentage branch. -/
def pctMarkers : List String := ["_mom", "_yoy", "sold_above_list", "off_market_in_two_weeks"]

/-- Substring markers selecting the `int()` branch. -/
def intMarkers : List String := ["price", "sold", "inventory", "dom", "listings", "pending", "zhvi"]

/-- The per-field `try:` block of the final-assembly loop
(`update-market-data.py` lines 197-219). `Except.error ()` stands for a
raised `ValueError`/`TypeError`. -/
def formatTry (key : String) (val : PyVal) : Except Unit PyVal :=
  if key = "period_end" then
    match val with
    | .date y m d => .ok (.str (fmtDate y m d))
    | v => .ok (.str (strTake10 (pyStr v)))
  else if key = "lat" ∨ key = "lng" then
    (pyFloat val).map (fun q => .num (pyRound q 5))
  else if key = "median_ppsf" then
    (pyFloat val).map (fun q => .num (pyRound q 2))
  else if key = "avg_sale_to_list_ratio" then
    (pyFloat val).map (fun q => .num (pyRound (q * 100) 1))
  else if pctMarkers.any (fun p => strContains key p) then
    if strContains key "dom" then
      (pyFloat val).map (fun q => .num (pyRound q 1))
    else
      (pyFloat val).map (fun q => .num (pyRound (q * 100) 1))
  else if intMarkers.any (fun p => strContains key p) then
    (pyFloat val).map (fun q => .num ((pyTrunc q : ℤ) : ℚ))
  else .ok val

/-- `val is None or pd.isna(val) or val == ""`. -/
def isMissing : PyVal → Bool
  | .none => true
  | .nan => true
  | .str s => s = ""
  | _ => false

/-- One field of the final-assembly loop: the missing-value check, then
the `try:` block with `ValueError`/`TypeError` mapped to `None`. -/
def formatValue (key : String) (val : PyVal) : PyVal :=
  if isMissing val then .none
  else
    match formatTry key val with
    | .ok v => v
    | .error _ => .none

/-- A Python dict of field name to value, as an association list. -/
abbrev Record := List (String × PyVal)

/-- First-match association-list lookup (`dict` access). -/
def alookup {α : Type} : List (String × α) → String → Option α
  | [], _ => Option.none
  | p :: ps, k => if p.1 = k then some p.2 else alookup ps k

/-- Python `d.get(k)`: `None` when the key is absent. -/
def dget (r : Record) (k : String) : PyVal := (alookup r k).getD .none

/-- The whole `ordered_data` construction of the final-assembly loop:
every key of `key_order` in order, each field formatted independently. -/
def formatRecord (raw : Record) : Record :=
  key_order.map (fun k => (k, formatValue k (dget raw k)))

/-! ### `extract_zip_code` (regex `Zip Code:\s*(\d{5})` via `re.search`) -/

/-- Python regex `\s` on the characters occurring here (ASCII whitespace). -/
def pyIsSpace (c : Char) : Bool :=
  c = ' ' || c = '\t' || c = '\n' || c = '\x0d' || c = '\x0b' || c = '\x0c'

/-- Greedy `\s*`: drop the maximal run of whitespace. -/
def skipWs : List Char → List Char
  | [] => []
  | c :: cs => if pyIsSpace c then skipWs cs else c :: cs

/-- `(\d{5})`: capture exactly five digits at the head (more may follow). -/
def take5Digits : List Char → Option (List Char)
  | d1 :: d2 :: d3 :: d4 :: d5 :: _ =>
      if d1.isDigit && d2.isDigit && d3.isDigit && d4.isDigit && d5.isDigit then
        some [d1, d2, d3, d4, d5]
      else Option.none
  | _ => Option.none

/-- The literal part of the pattern. -/
def zipLit : List Char := "Zip Code:".toList

/-- Strip an exact literal from the head, or fail. -/
def dropLit : List Char → List Char → Option (List Char)
  | [], cs => some cs
  | _ :: _, [] => Option.none
  | p :: ps, c :: cs => if c = p then dropLit ps cs else Option.none

/-- Try the pattern `Zip Code:\s*(\d{5})` anchored at the head. -/
def matchZipAt (cs : List Char) : Option String :=
  (dropLit zipLit cs).bind fun rest =>
    (take5Digits (skipWs rest)).map fun ds => String.mk ds

/-- `re.search`: try the pattern at each position, left to right. -/
def searchZip : List Char → Option String
  | [] => Option.none
  | c :: cs =>
      match matchZipAt (c :: cs) with
      | some s => some s
      | Option.none => searchZip cs

/-- `extract_zip_code(region_str)` (`update-market-data.py` lines 85-88):
`None` input maps to `None` via the `pd.isna` guard. -/
def extract_zip_code : Option String → Option String
  | Option.none => Option.none
  | some s => searchZip s.toList

/-- The spec's side of C9: the string contains `Zip Code:` followed by
whitespace and five digits. -/
def hasZipPattern (cs : List Char) : Prop :=
  ∃ pre ws ds post, cs = pre ++ zipLit ++ ws ++ ds ++ post ∧
    (∀ c ∈ ws, pyIsSpace c) ∧ ds.length = 5 ∧ (∀ c ∈ ds, c.isDigit)

/-! ### Latest-record reduction (`update-market-data.py` lines 132-146) -/

/-- One Redfin feed row after ZIP extraction: the join key, the parsed
`PERIOD_END` (as a day ordinal, order-isomorphic to `Timestamp`s), and the
remaining row fields. -/
structure FeedRow where
  zip_code : String
  period_end : ℤ
  data : Record
  deriving DecidableEq, Repr

/-- The loop body `if z not in latest_records or row.PERIOD_END >
latest_records[z].PERIOD_END: latest_records[z] = row`. -/
def latestStep (m : String → Option FeedRow) (r : FeedRow) : String → Option FeedRow :=
  match m r.zip_code with
  | Option.none => fun z => if z = r.zip_code then some r else m z
  | some cur =>
      if cur.period_end < r.period_end then
        (fun z => if z = r.zip_code then some r else m z)
      else m

/-- `latest_records` after folding the whole feed, chunks concatenated in
order. -/
def latestRecords (rows : List FeedRow) : String → Option FeedRow :=
  rows.foldl latestStep (fun _ => Option.none)

/-- The same reduction run chunk by chunk, as the chunked CSV reader does. -/
def latestRecordsChunked (chunks : List (List FeedRow)) : String → Option FeedRow :=
  chunks.foldl (fun m c => c.foldl latestStep m) (fun _ => Option.none)

/-- The reduction restricted to one key: keep the strictly later row. -/
def bestStep (acc : Option FeedRow) (r : FeedRow) : Option FeedRow :=
  match acc with
  | Option.none => some r
  | some cur => if cur.period_end < r.period_end then some r else acc

/-- Single-key view of the reduction. -/
def bestRow (rows : List FeedRow) : Option FeedRow := rows.foldl bestStep Option.none

/-- C2's side condition: per ZIP, the rows carry pairwise-distinct
`period_end` dates. -/
def distinctDatesPerZip (rows : List FeedRow) : Prop :=
  ∀ z : String, ((rows.filter (fun r => r.zip_code == z)).map FeedRow.period_end).Nodup

/-! ### Diff & persist (`update-market-data.py` lines 226-294) -/

/-- Python `dict ==` on records (same keys, same values). -/
def dictEqB (a b : Record) : Bool :=
  a.all (fun p => decide (alookup b p.1 = some p.2)) &&
    b.all (fun p => decide (alookup a p.1 = some p.2))

/-- The inner loop `for k, v in output_data[z].items(): if v !=
old_data[z].get(k): data_points_changed += 1`. -/
def countFieldChanges (newRec oldRec : Record) : ℕ :=
  (newRec.map (fun p => if p.2 ≠ dget oldRec p.1 then 1 else 0)).sum

/-- The change counters of the compare step (lines 258-271): first
component `zip_codes_changed`, second `data_points_changed`. -/
def computeDiff (newData oldData : List (String × Record)) : ℕ × ℕ :=
  let newZips : Finset String := (newData.map Prod.fst).toFinset
  let oldZips : Finset String := (oldData.map Prod.fst).toFinset
  let common := newZips ∩ oldZips
  let changedCommon := common.filter
      (fun z => dictEqB ((alookup newData z).getD []) ((alookup oldData z).getD []) = false)
  (((newZips \ oldZips) ∪ (oldZips \ newZips)).card + changedCommon.card,
    changedCommon.sum
      (fun z => countFieldChanges ((alookup newData z).getD []) ((alookup oldData z).getD [])))

/-- The spec's C3 example, old dataset. -/
def exOld : List (String × Record) := [("00001", [("x", PyVal.num 1)])]

/-- The spec's C3 example, new dataset. -/
def exNew : List (String × Record) :=
  [("00001", [("x", PyVal.num 2)]), ("00002", [("x", PyVal.num 1)])]

/-- What was read back from a previous `zip-data.json`, when one existed:
`old_payload.get('last_updated_utc')` and the reconstructed records. -/
structure OldPayload where
  last_updated_utc : Option String
  zips : List (String × Record)

/-- `old_timestamp` after the read-back block: `None` when no previous
file existed (or it could not be parsed), else the payload's optional
`last_updated_utc`. -/
def readOldTimestamp : Option OldPayload → Option String
  | Option.none => Option.none
  | some p => p.last_updated_utc

/-- Line 287: `current if (old_timestamp is None or zip_codes_changed > 0
or data_points_changed > 0) else old_timestamp`. -/
def timestampToUse : Option String → ℕ → ℕ → String → String
  | Option.none, _, _, current => current
  | some t, zc, dp, current => if 0 < zc ∨ 0 < dp then current else t

/-! ### Final assembly (`update-market-data.py` lines 171-223) -/

/-- `get_full_column_mapping()`: Redfin column name to internal name. -/
def get_full_column_mapping : List (String × String) :=
  [("PERIOD_END", "period_end"),
   ("MEDIAN_SALE_PRICE", "median_sale_price"), ("MEDIAN_SALE_PRICE_MOM", "median_sale_price_mom"),
   ("MEDIAN_SALE_PRICE_YOY", "median_sale_price_yoy"),
   ("MEDIAN_LIST_PRICE", "median_list_price"), ("MEDIAN_LIST_PRICE_MOM", "median_list_price_mom"),
   ("MEDIAN_LIST_PRICE_YOY", "median_list_price_yoy"),
   ("MEDIAN_PPSF", "median_ppsf"), ("MEDIAN_PPSF_MOM", "median_ppsf_mom"),
   ("MEDIAN_PPSF_YOY", "median_ppsf_yoy"),
   ("HOMES_SOLD", "homes_sold"), ("HOMES_SOLD_MOM", "homes_sold_mom"),
   ("HOMES_SOLD_YOY", "homes_sold_yoy"),
   ("PENDING_SALES", "pending_sales"), ("PENDING_SALES_MOM", "pending_sales_mom"),
   ("PENDING_SALES_YOY", "pending_sales_yoy"),
   ("NEW_LISTINGS", "new_listings"), ("NEW_LISTINGS_MOM", "new_listings_mom"),
   ("NEW_LISTINGS_YOY", "new_listings_yoy"),
   ("INVENTORY", "inventory"), ("INVENTORY_MOM", "inventory_mom"),
   ("INVENTORY_YOY", "inventory_yoy"),
   ("MEDIAN_DOM", "median_dom"), ("MEDIAN_DOM_MOM", "median_dom_mom"),
   ("MEDIAN_DOM_YOY", "median_dom_yoy"),
   ("AVG_SALE_TO_LIST", "avg_sale_to_list_ratio"), ("AVG_SALE_TO_LIST_MOM", "avg_sale_to_list_mom"),
   ("AVG_SALE_TO_LIST_YOY", "avg_sale_to_list_ratio_yoy"),
   ("SOLD_ABOVE_LIST", "sold_above_list"), ("SOLD_ABOVE_LIST_MOM", "sold_above_list_mom"),
   ("SOLD_ABOVE_LIST_YOY", "sold_above_list_yoy"),
   ("OFF_MARKET_IN_TWO_WEEKS", "off_market_in_two_weeks"),
   ("OFF_MARKET_IN_TWO_WEEKS_MOM", "off_market_in_two_weeks_mom"),
   ("OFF_MARKET_IN_TWO_WEEKS_YOY", "off_market_in_two_weeks_yoy")]

/-- `col_map.get(k, k)`. -/
def colMapGet (k : String) : String := (alookup get_full_column_mapping k).getD k

/-- `{col_map.get(k, k): v for k, v in redfin_dict.items()}`. -/
def colMapRename (r : Record) : Record := r.map (fun p => (colMapGet p.1, p.2))

/-- The initial `raw_data` dict built from the mapping row `zm`. -/
def mapBase (zm : Record) : Record :=
  [("city", dget zm "city"), ("county", dget zm "county"), ("state", dget zm "state"),
   ("metro", dget zm "metro"), ("lat", dget zm "lat"), ("lng", dget zm "lng")]

/-- Python `a.update(b)`: `b` overwrites `a` on shared keys, new keys of
`b` append in order. -/
def dUpdate (a b : Record) : Record :=
  a.map (fun p => (p.1, (alookup b p.1).getD p.2)) ++
    b.filter (fun p => (alookup a p.1).isNone)

/-- `if redfin_dict: raw_data.update(redfin_mapped)` — an absent or
empty dict is falsy and skipped. -/
def withRedfin (base : Record) : Option Record → Record
  | Option.none => base
  | some rd => if rd = [] then base else dUpdate base (colMapRename rd)

/-- `if zip_code in zillow_data: raw_data.update(zillow_data[zip_code])`. -/
def withZillow (cur : Record) : Option Record → Record
  | Option.none => cur
  | some zd => dUpdate cur zd

/-- `raw_data` for one ZIP: mapping fields, then (if any) the renamed
Redfin row, then (if any) the Zillow fields. -/
def buildRaw (zm : Record) (redfin : Option Record) (zillow : Option Record) : Record :=
  withZillow (withRedfin (mapBase zm) redfin) zillow

/-- The `for zip_code, zm in zip_mapping.items():` loop: one formatted
record per mapping entry. -/
def assembleOutput (zip_mapping : List (String × Record))
    (latest : String → Option Record) (zillow : String → Option Record) :
    List (String × Record) :=
  zip_mapping.map (fun p => (p.1, formatRecord (buildRaw p.2 (latest p.1) (zillow p.1))))

/-! ### Columnar output (`update-market-data.py` lines 276-294) -/

/-- Lexicographic code-point comparison of character lists (Python's
string `<=`). -/
def charListLe : List Char → List Char → Bool
  | [], _ => true
  | _ :: _, [] => false
  | c :: cs, d :: ds =>
      if c.toNat < d.toNat then true
      else if d.toNat < c.toNat then false
      else charListLe cs ds

/-- Python string `<=`. -/
def strLe (a b : String) : Bool := charListLe a.toList b.toList

/-- Insert into a sorted list (stable). -/
def insertSorted (x : String) : List String → List String
  | [] => [x]
  | y :: ys => if strLe x y then x :: y :: ys else y :: insertSorted x ys

/-- `sorted(...)` on strings: a stable sort by `strLe`. -/
def sortStrings : List String → List String
  | [] => []
  | x :: xs => insertSorted x (sortStrings xs)

/-- `z`: the sorted key list. -/
def columnarZ (output : List (String × Record)) : List String :=
  sortStrings (output.map Prod.fst)

/-- `d`: per sorted ZIP, `[output_data[zip].get(field) for field in key_order]`. -/
def columnarD (output : List (String × Record)) : List (List PyVal) :=
  (columnarZ output).map (fun z => key_order.map (fun f => dget ((alookup output z).getD []) f))

/-! ### `process_zillow_data` (`update-market-data.py` lines 54-83) -/

/-- One row of the Zillow ZHVI CSV: the region name and, per column, a
float cell (`Option.none` models a NaN/empty cell). -/
structure ZillowRow where
  regionName : String
  cells : String → Option ℚ

/-- The parsed Zillow dataframe: its column list and rows. -/
structure ZillowTable where
  columns : List String
  rows : List ZillowRow

/-- `re.match(r'\d{4}-\d{2}-\d{2}', c)`: anchored at the start, trailing
characters allowed. -/
def isDateCol (s : String) : Bool :=
  match s.toList with
  | y1 :: y2 :: y3 :: y4 :: '-' :: m1 :: m2 :: '-' :: d1 :: d2 :: _ =>
      y1.isDigit && y2.isDigit && y3.isDigit && y4.isDigit &&
        m1.isDigit && m2.isDigit && d1.isDigit && d2.isDigit
  | _ => false

/-- `sorted([c for c in df.columns if re.match(...)])`. -/
def dateColsOf (t : ZillowTable) : List String := sortStrings (t.columns.filter isDateCol)

/-- Python `str.zfill(5)` on an unsigned string. -/
def zfill5 (s : String) : String :=
  String.mk (List.replicate (5 - s.length) '0') ++ s

/-- One output entry: `zhvi` (a float), and the MOM/YOY ratios, each
either Python `None` (outer `none`) or a float that may be NaN (inner
`none`). -/
structure ZillowEntry where
  zhvi : ℚ
  zhvi_mom : Option (Option ℚ)
  zhvi_yoy : Option (Option ℚ)
  deriving DecidableEq, Repr

/-- `round(((val / cmp) - 1), 3) if cmp and cmp != 0 else None`: a NaN
comparand is truthy and nonzero in Python, so it propagates NaN; a zero
comparand yields `None`. -/
def ratioOrNone (val : ℚ) (cmp : Option ℚ) : Option (Option ℚ) :=
  match cmp with
  | Option.none => some Option.none
  | some q => if q = 0 then Option.none else some (some (pyRound (val / q - 1) 3))

/-- The dict row written for one Zillow row. -/
def mkZillowEntry (mom yoy : String) (r : ZillowRow) (val : ℚ) : ZillowEntry :=
  { zhvi := pyRound val 2,
    zhvi_mom := ratioOrNone val (r.cells mom),
    zhvi_yoy := ratioOrNone val (r.cells yoy) }

/-- Python dict assignment `d[k] = v` on an association list: replace in
place or append. -/
def dinsert {α : Type} : List (String × α) → String → α → List (String × α)
  | [], k, v => [(k, v)]
  | p :: ps, k, v => if p.1 = k then (k, v) :: ps else p :: dinsert ps k v

/-- `date_cols[-1]`, the latest date column. -/
def currCol (t : ZillowTable) : String := (dateColsOf t).reverse.getD 0 ""

/-- `date_cols[-2]`, the previous date column. -/
def momCol (t : ZillowTable) : String := (dateColsOf t).reverse.getD 1 ""

/-- `date_cols[-13]`, the date column 12 months earlier. -/
def yoyCol (t : ZillowTable) : String := (dateColsOf t).reverse.getD 12 ""

/-- `process_zillow_data` (lines 54-83): empty result on short history,
else one entry per row with a non-NaN value in the latest date column. -/
def process_zillow_data (t : ZillowTable) : List (String × ZillowEntry) :=
  if (dateColsOf t).length < 13 then []
  else
    t.rows.foldl (fun acc r =>
      match r.cells (currCol t) with
      | Option.none => acc
      | some val =>
          dinsert acc (zfill5 r.regionName) (mkZillowEntry (momCol t) (yoyCol t) r val)) []

/-- The rows of `t` that produce `z`'s entry, last one winning. -/
def lastContrib (t : ZillowTable) (curr : String) (z : String) : Option ZillowRow :=
  (t.rows.filter (fun r => zfill5 r.regionName == z && (r.cells curr).isSome)).getLast?

/-! ### Concrete inputs used by witnesses and counterexamples -/

/-- Three rows for one ZIP, periods January, March, February. -/
def exRows : List FeedRow :=
  [⟨"A", 1, []⟩, ⟨"A", 3, []⟩, ⟨"A", 2, []⟩]

/-- A permutation of `exRows`. -/
def exRowsPerm : List FeedRow :=
  [⟨"A", 3, []⟩, ⟨"A", 2, []⟩, ⟨"A", 1, []⟩]

/-- A raw record whose `sold_above_list` is the fraction 0.5. -/
def exRawPct : Record := [("sold_above_list", PyVal.num (1/2))]

/-- The keys on which `formatTry` applies the ×100 conversion: not caught
by an earlier branch, and either the `avg_sale_to_list_ratio` special
case or a percentage marker without `dom` in the name. -/
def scaledKey (k : String) : Prop :=
  k ≠ "period_end" ∧ k ≠ "lat" ∧ k ≠ "lng" ∧ k ≠ "median_ppsf" ∧
    (k = "avg_sale_to_list_ratio" ∨
      (pctMarkers.any (fun p => strContains k p) = true ∧ strContains k "dom" = false))

/-- The keys that carry a percentage marker but fall into the
`'dom' in key` sub-branch (rounded to 1 decimal, not scaled). -/
def domPctKey (k : String) : Prop :=
  k ≠ "period_end" ∧ k ≠ "lat" ∧ k ≠ "lng" ∧ k ≠ "median_ppsf" ∧
    k ≠ "avg_sale_to_list_ratio" ∧
    pctMarkers.any (fun p => strContains k p) = true ∧ strContains k "dom" = true

/-- A raw record whose `lat` raises `ValueError` in `float()`. -/
def exRawErr : Record := [("lat", PyVal.str "abc"), ("city", PyVal.str "Austin")]

/-- Left-biased choice on options (`some` wins), used to state dict
overlay precedence. -/
def orO {α : Type} : Option α → Option α → Option α
  | some v, _ => some v
  | Option.none, o => o

/-- A one-record assembled dataset for the columnar-invariant witness. -/
def exOut : List (String × Record) := [("00001", [("x", PyVal.num 1)])]

/-- Lookup into an optional source dict (`None` when the source is
absent for this ZIP). -/
def sourceLookup (r : Option Record) (k : String) : Option PyVal :=
  match r with
  | Option.none => Option.none
  | some rd => alookup rd k

/-- Thirteen monthly date columns. -/
def exDates : List String :=
  ["2024-01-31", "2024-02-29", "2024-03-31", "2024-04-30", "2024-05-31", "2024-06-30",
   "2024-07-31", "2024-08-31", "2024-09-30", "2024-10-31", "2024-11-30", "2024-12-31",
   "2025-01-31"]

/-- A Zillow table with one row: the latest month holds 100, every other
cell (including the previous month) is NaN. -/
def exZillowTable : ZillowTable :=
  { columns := "RegionName" :: exDates,
    rows := [{ regionName := "123",
               cells := fun c => if c = "2025-01-31" then some 100 else Option.none }] }

/-! ## Theorems -/

theorem roundHalfEven_intCast (n : ℤ) : roundHalfEven (n : ℚ) = n := by
  unfold roundHalfEven
  simp [Int.floor_intCast]

theorem pyRound_mul_pow (x : ℚ) (n : ℕ) :
    pyRound x n * 10 ^ n = (roundHalfEven (x * 10 ^ n) : ℚ) := by
  unfold pyRound
  rw [div_mul_cancel₀]
  positivity

theorem pyRound_idem (x : ℚ) (n : ℕ) :
    pyRound (pyRound x n) n = pyRound x n := by
  unfold pyRound
  rw [show (roundHalfEven (x * 10 ^ n) : ℚ) / 10 ^ n * 10 ^ n
        = (roundHalfEven (x * 10 ^ n) : ℚ) from
      div_mul_cancel₀ _ (by positivity), roundHalfEven_intCast]

theorem pyTrunc_intCast (n : ℤ) : pyTrunc (n : ℚ) = n := by
  unfold pyTrunc
  by_cases h : (0 : ℚ) ≤ (n : ℚ) <;> simp [h]

theorem alookup_cons {α : Type} (p : String × α) (l : List (String × α)) (k : String) :
    alookup (p :: l) k = if p.1 = k then some p.2 else alookup l k := rfl

/-- Looking a present key up in a key-indexed `map` image gives the image
of that key (first occurrence; every occurrence carries the same value). -/
theorem alookup_map_self {α : Type} (f : String → α) (ks : List String) (k : String)
    (hk : k ∈ ks) : alookup (ks.map (fun x => (x, f x))) k = some (f k) := by
  induction ks with
  | nil => cases hk
  | cons x xs ih =>
      simp only [List.map_cons, alookup_cons]
      by_cases hx : x = k
      · subst hx; simp
      · simp only [hx, if_false]
        exact ih (by
          rcases List.mem_cons.mp hk with h | h
          · exact absurd h.symm hx
          · exact h)

theorem dget_formatRecord (raw : Record) (k : String) (hk : k ∈ key_order) :
    dget (formatRecord raw) k = formatValue k (dget raw k) := by
  calc dget (formatRecord raw) k
      = (alookup (key_order.map fun x => (x, formatValue x (dget raw x))) k).getD .none := rfl
    _ = (some (formatValue k (dget raw k))).getD .none := by
          rw [alookup_map_self _ _ _ hk]
    _ = formatValue k (dget raw k) := rfl

theorem formatRecord_keys (raw : Record) : (formatRecord raw).map Prod.fst = key_order := by
  unfold formatRecord
  rw [List.map_map]
  exact List.map_id key_order

/-! ### C9: `extract_zip_code` -/

theorem dropLit_sound (lit : List Char) :
    ∀ cs r, dropLit lit cs = some r → cs = lit ++ r := by
  induction lit with
  | nil => intro cs r h; simpa [dropLit] using h
  | cons p ps ih =>
      intro cs r h
      cases cs with
      | nil => simp [dropLit] at h
      | cons c cs' =>
          simp only [dropLit] at h
          split at h
          · next hc => rw [List.cons_append, hc, ih cs' r h]
          · exact absurd h (by simp)

theorem dropLit_append (lit r : List Char) : dropLit lit (lit ++ r) = some r := by
  induction lit with
  | nil => rfl
  | cons p ps ih => simp [dropLit, ih]

theorem skipWs_decomp (cs : List Char) :
    ∃ ws, cs = ws ++ skipWs cs ∧ ∀ c ∈ ws, pyIsSpace c := by
  induction cs with
  | nil => exact ⟨[], rfl, by simp⟩
  | cons c cs ih =>
      by_cases hc : pyIsSpace c
      · obtain ⟨ws, hws, hsp⟩ := ih
        refine ⟨c :: ws, ?_, ?_⟩
        · simpa [skipWs, hc] using congrArg (c :: ·) hws
        · intro x hx
          rcases List.mem_cons.mp hx with h | h
          · exact h ▸ hc
          · exact hsp x h
      · exact ⟨[], by simp [skipWs, hc], by simp⟩

theorem skipWs_append_spaces (ws t : List Char) (h : ∀ c ∈ ws, pyIsSpace c) :
    skipWs (ws ++ t) = skipWs t := by
  induction ws with
  | nil => rfl
  | cons c ws ih =>
      have hc : pyIsSpace c := h c (List.mem_cons_self c ws)
      simp only [List.cons_append, skipWs, hc, if_true]
      exact ih (fun x hx => h x (List.mem_cons_of_mem c hx))

theorem digit_not_space (c : Char) (h : c.isDigit = true) : pyIsSpace c = false := by
  unfold pyIsSpace
  unfold Char.isDigit at h
  simp only [Bool.or_eq_false_iff]
  refine ⟨⟨⟨⟨⟨?_, ?_⟩, ?_⟩, ?_⟩, ?_⟩, ?_⟩ <;>
    · simp only [decide_eq_false_iff_not]
      intro hc
      subst hc
      simp at h

theorem take5Digits_sound (l ds : List Char) (h : take5Digits l = some ds) :
    ∃ rest, l = ds ++ rest ∧ ds.length = 5 ∧ ∀ c ∈ ds, c.isDigit := by
  match l with
  | d1 :: d2 :: d3 :: d4 :: d5 :: rest =>
      by_cases hd : (d1.isDigit && d2.isDigit && d3.isDigit && d4.isDigit && d5.isDigit) = true
      · rw [show take5Digits (d1 :: d2 :: d3 :: d4 :: d5 :: rest)
              = if d1.isDigit && d2.isDigit && d3.isDigit && d4.isDigit && d5.isDigit then
                  some [d1, d2, d3, d4, d5] else Option.none from rfl, if_pos hd] at h
        obtain ⟨⟨⟨⟨h1, h2⟩, h3⟩, h4⟩, h5⟩ := by simpa only [Bool.and_eq_true] using hd
        injection h with h'
        subst h'
        exact ⟨rest, rfl, rfl, by
          intro c hc
          simp only [List.mem_cons, List.not_mem_nil, or_false] at hc
          rcases hc with h | h | h | h | h <;> subst h <;> assumption⟩
      · rw [show take5Digits (d1 :: d2 :: d3 :: d4 :: d5 :: rest)
              = if d1.isDigit && d2.isDigit && d3.isDigit && d4.isDigit && d5.isDigit then
                  some [d1, d2, d3, d4, d5] else Option.none from rfl, if_neg hd] at h
        exact absurd h (by simp)
  | [] => simp [take5Digits] at h
  | [d1] => simp [take5Digits] at h
  | [d1, d2] => simp [take5Digits] at h
  | [d1, d2, d3] => simp [take5Digits] at h
  | [d1, d2, d3, d4] => simp [take5Digits] at h

theorem take5Digits_complete (ds rest : List Char) (hlen : ds.length = 5)
    (hdig : ∀ c ∈ ds, c.isDigit) : take5Digits (ds ++ rest) = some ds := by
  match ds, hlen with
  | [d1, d2, d3, d4, d5], _ =>
      have h1 := hdig d1 (by simp)
      have h2 := hdig d2 (by simp)
      have h3 := hdig d3 (by simp)
      have h4 := hdig d4 (by simp)
      have h5 := hdig d5 (by simp)
      simp [take5Digits, h1, h2, h3, h4, h5]

theorem matchZipAt_sound (cs : List Char) (s : String) (h : matchZipAt cs = some s) :
    ∃ ws ds post, cs = zipLit ++ ws ++ ds ++ post ∧ (∀ c ∈ ws, pyIsSpace c) ∧
      ds.length = 5 ∧ (∀ c ∈ ds, c.isDigit) ∧ s = String.mk ds := by
  unfold matchZipAt at h
  rw [Option.bind_eq_some] at h
  obtain ⟨rest, hd, h⟩ := h
  rw [Option.map_eq_some'] at h
  obtain ⟨ds, ht, hs⟩ := h
  obtain ⟨post, hpost, hlen, hdig⟩ := take5Digits_sound _ _ ht
  obtain ⟨ws, hws, hsp⟩ := skipWs_decomp rest
  refine ⟨ws, ds, post, ?_, hsp, hlen, hdig, hs.symm⟩
  rw [dropLit_sound zipLit cs rest hd, hws, hpost]
  simp

theorem matchZipAt_complete (ws ds post : List Char) (hws : ∀ c ∈ ws, pyIsSpace c)
    (hlen : ds.length = 5) (hdig : ∀ c ∈ ds, c.isDigit) :
    matchZipAt (zipLit ++ ws ++ ds ++ post) = some (String.mk ds) := by
  have hstart : skipWs (ds ++ post) = ds ++ post := by
    match ds, hlen with
    | d1 :: ds', _ =>
        have h1 : pyIsSpace d1 = false :=
          digit_not_space d1 (hdig d1 (List.mem_cons_self d1 ds'))
        simp [skipWs, h1]
  unfold matchZipAt
  rw [show zipLit ++ ws ++ ds ++ post = zipLit ++ (ws ++ (ds ++ post)) by simp,
    dropLit_append]
  show (take5Digits (skipWs (ws ++ (ds ++ post)))).map (fun ds => String.mk ds)
      = some (String.mk ds)
  rw [skipWs_append_spaces ws (ds ++ post) hws, hstart,
    take5Digits_complete ds post hlen hdig]
  rfl

theorem searchZip_cons_of_tail (c : Char) (cs : List Char)
    (h : (searchZip cs).isSome) : (searchZip (c :: cs)).isSome := by
  unfold searchZip
  cases hm : matchZipAt (c :: cs) <;> simp [hm, h]

theorem searchZip_sound (cs : List Char) :
    ∀ s, searchZip cs = some s →
      ∃ pre ws ds post, cs = pre ++ zipLit ++ ws ++ ds ++ post ∧
        (∀ c ∈ ws, pyIsSpace c) ∧ ds.length = 5 ∧ (∀ c ∈ ds, c.isDigit) ∧
        s = String.mk ds := by
  induction cs with
  | nil => intro s h; simp [searchZip] at h
  | cons c cs ih =>
      intro s h
      unfold searchZip at h
      cases hm : matchZipAt (c :: cs) with
      | some t =>
          rw [hm] at h
          obtain ⟨ws, ds, post, hcs, hsp, hlen, hdig, hs⟩ :=
            matchZipAt_sound (c :: cs) t hm
          exact ⟨[], ws, ds, post, by simpa using hcs, hsp, hlen, hdig, by
            cases h; exact hs⟩
      | none =>
          rw [hm] at h
          obtain ⟨pre, ws, ds, post, hcs, hsp, hlen, hdig, hs⟩ := ih s h
          exact ⟨c :: pre, ws, ds, post, by simpa using congrArg (c :: ·) hcs,
            hsp, hlen, hdig, hs⟩

theorem searchZip_complete (pre ws ds post : List Char) (hws : ∀ c ∈ ws, pyIsSpace c)
    (hlen : ds.length = 5) (hdig : ∀ c ∈ ds, c.isDigit) :
    (searchZip (pre ++ zipLit ++ ws ++ ds ++ post)).isSome := by
  induction pre with
  | nil =>
      have hm := matchZipAt_complete ws ds post hws hlen hdig
      have hz : zipLit ++ ws ++ ds ++ post
          = 'Z' :: ("ip Code:".toList ++ ws ++ ds ++ post) := by
        have h0 : zipLit = 'Z' :: "ip Code:".toList := by decide
        simp [h0]
      simp only [List.nil_append]
      rw [hz] at hm ⊢
      unfold searchZip
      rw [hm]
      rfl
  | cons c pre ih =>
      exact searchZip_cons_of_tail c _ (by simpa using ih)

/-- C9: on a string containing `Zip Code:` + whitespace + five digits,
`extract_zip_code` returns exactly such a captured 5-digit substring; on a
string without the pattern, and on null input, it returns `None`. -/
theorem extract_zip_code_correct (s : String) :
    (∀ r, extract_zip_code (some s) = some r →
      ∃ pre ws ds post, s.toList = pre ++ zipLit ++ ws ++ ds ++ post ∧
        (∀ c ∈ ws, pyIsSpace c) ∧ ds.length = 5 ∧ (∀ c ∈ ds, c.isDigit) ∧
        r = String.mk ds)
    ∧ (hasZipPattern s.toList → (extract_zip_code (some s)).isSome)
    ∧ (¬ hasZipPattern s.toList → extract_zip_code (some s) = Option.none)
    ∧ extract_zip_code Option.none = Option.none := by
  refine ⟨fun r h => searchZip_sound s.toList r h, ?_, ?_, rfl⟩
  · rintro ⟨pre, ws, ds, post, hcs, hsp, hlen, hdig⟩
    show (searchZip s.toList).isSome
    rw [hcs]
    exact searchZip_complete pre ws ds post hsp hlen hdig
  · intro hno
    cases hm : extract_zip_code (some s) with
    | none => rfl
    | some r =>
        obtain ⟨pre, ws, ds, post, hcs, hsp, hlen, hdig, _⟩ :=
          searchZip_sound s.toList r hm
        exact absurd ⟨pre, ws, ds, post, hcs, hsp, hlen, hdig⟩ hno

/-- C9 witness: `extract_zip_code` applied to `"Zip Code: 12345"` returns
a value, by the completeness direction of `extract_zip_code_correct`. -/
theorem extract_zip_code_correct_witness :
    (extract_zip_code (some "Zip Code: 12345")).isSome :=
  (extract_zip_code_correct "Zip Code: 12345").2.1
    ⟨[], [' '], ['1', '2', '3', '4', '5'], [], by decide, by decide, by decide, by decide⟩

/-! ### C2: latest-record reduction -/

theorem latestStep_apply (m : String → Option FeedRow) (r : FeedRow) (z : String) :
    latestStep m r z = if z = r.zip_code then bestStep (m z) r else m z := by
  unfold latestStep
  cases hm : m r.zip_code with
  | none =>
      by_cases hz : z = r.zip_code
      · subst hz; simp [hm, bestStep]
      · simp [hz]
  | some cur =>
      by_cases hz : z = r.zip_code
      · subst hz
        by_cases hlt : cur.period_end < r.period_end <;> simp [hm, hlt, bestStep]
      · by_cases hlt : cur.period_end < r.period_end <;> simp [hz, hlt]

theorem foldl_latestStep_filter (rows : List FeedRow) :
    ∀ (m : String → Option FeedRow) (z : String),
      rows.foldl latestStep m z
        = (rows.filter (fun r => r.zip_code == z)).foldl bestStep (m z) := by
  induction rows with
  | nil => intro m z; rfl
  | cons r rows ih =>
      intro m z
      simp only [List.foldl_cons]
      by_cases hz : r.zip_code = z
      · rw [List.filter_cons_of_pos (by simpa using hz), List.foldl_cons, ih]
        congr 1
        rw [latestStep_apply]
        simp [hz.symm]
      · rw [List.filter_cons_of_neg (by simpa using hz), ih]
        congr 1
        rw [latestStep_apply, if_neg (fun h => hz h.symm)]

theorem latestRecords_eq_bestRow (rows : List FeedRow) (z : String) :
    latestRecords rows z = bestRow (rows.filter (fun r => r.zip_code == z)) :=
  foldl_latestStep_filter rows (fun _ => Option.none) z

theorem bestStep_shape (acc : Option FeedRow) (x : FeedRow) :
    ∃ b', bestStep acc x = some b' ∧ x.period_end ≤ b'.period_end ∧
      (∀ b, acc = some b → b.period_end ≤ b'.period_end) ∧
      (acc = some b' ∨ b' = x) := by
  cases acc with
  | none => exact ⟨x, rfl, le_refl _, by simp, Or.inr rfl⟩
  | some cur =>
      by_cases hlt : cur.period_end < x.period_end
      · exact ⟨x, by simp [bestStep, hlt], le_refl _,
          fun b hb => by cases hb; exact le_of_lt hlt, Or.inr rfl⟩
      · exact ⟨cur, by simp [bestStep, hlt], le_of_not_lt hlt,
          fun b hb => by cases hb; exact le_refl _, Or.inl rfl⟩

theorem foldl_bestStep_some (l : List FeedRow) :
    ∀ acc r, l.foldl bestStep acc = some r →
      (acc = some r ∨ r ∈ l) ∧ (∀ x ∈ l, x.period_end ≤ r.period_end) ∧
        (∀ b, acc = some b → b.period_end ≤ r.period_end) := by
  induction l with
  | nil =>
      intro acc r h
      refine ⟨Or.inl h, by simp, fun b hb => ?_⟩
      rw [hb] at h
      cases h
      exact le_refl _
  | cons x l ih =>
      intro acc r h
      rw [List.foldl_cons] at h
      obtain ⟨hmem, hmax, hacc⟩ := ih (bestStep acc x) r h
      obtain ⟨b', hb', hxb', haccb', hid⟩ := bestStep_shape acc x
      have hb'r : b'.period_end ≤ r.period_end := hacc b' hb'
      refine ⟨?_, ?_, ?_⟩
      · rcases hmem with hm | hm
        · rw [hb'] at hm
          cases hm
          rcases hid with hi | hi
          · exact Or.inl hi
          · exact Or.inr (by rw [hi]; exact List.mem_cons_self x l)
        · exact Or.inr (List.mem_cons_of_mem x hm)
      · intro y hy
        rcases List.mem_cons.mp hy with hy | hy
        · subst hy; exact le_trans hxb' hb'r
        · exact hmax y hy
      · intro b hb
        exact le_trans (haccb' b hb) hb'r

theorem bestRow_spec (l : List FeedRow) (r : FeedRow) (h : bestRow l = some r) :
    r ∈ l ∧ ∀ x ∈ l, x.period_end ≤ r.period_end := by
  obtain ⟨hmem, hmax, _⟩ := foldl_bestStep_some l Option.none r h
  rcases hmem with hm | hm
  · cases hm
  · exact ⟨hm, hmax⟩

theorem foldl_bestStep_isSome (l : List FeedRow) :
    ∀ acc, acc.isSome → (l.foldl bestStep acc).isSome := by
  induction l with
  | nil => intro acc h; exact h
  | cons x l ih =>
      intro acc h
      rw [List.foldl_cons]
      obtain ⟨b', hb', _⟩ := bestStep_shape acc x
      exact ih _ (by rw [hb']; rfl)

theorem bestRow_isSome_of_ne_nil (l : List FeedRow) (h : l ≠ []) : (bestRow l).isSome := by
  cases l with
  | nil => exact absurd rfl h
  | cons x l => exact foldl_bestStep_isSome l (some x) rfl

theorem bestRow_eq_of_perm (l l' : List FeedRow) (hp : l.Perm l')
    (hd : (l.map FeedRow.period_end).Nodup) : bestRow l = bestRow l' := by
  cases hl : bestRow l with
  | none =>
      have hnil : l = [] := by
        by_contra hne
        have hs := bestRow_isSome_of_ne_nil l hne
        rw [hl] at hs
        simp at hs
      subst hnil
      rw [List.Perm.eq_nil hp.symm]
      rfl
  | some r =>
      cases hl' : bestRow l' with
      | none =>
          have hne : l' ≠ [] := by
            intro hnil
            subst hnil
            rw [List.Perm.eq_nil hp] at hl
            cases hl
          exact absurd (bestRow_isSome_of_ne_nil l' hne) (by rw [hl']; simp)
      | some r' =>
          obtain ⟨hrmem, hrmax⟩ := bestRow_spec l r hl
          obtain ⟨hrmem', hrmax'⟩ := bestRow_spec l' r' hl'
          have hr'l : r' ∈ l := hp.mem_iff.mpr hrmem'
          have hrl' : r ∈ l' := hp.mem_iff.mp hrmem
          have hpe : r.period_end = r'.period_end :=
            le_antisymm (hrmax' r hrl') (hrmax r' hr'l)
          rw [List.inj_on_of_nodup_map hd hrmem hr'l hpe]

/-- C2: the reduction keeps, per ZIP, exactly one row — one carrying the
maximum `period_end` — and, when the per-ZIP dates are pairwise distinct,
its result is invariant under permutation of the rows and independent of
the chunking the rows arrive in. -/
theorem latest_record_reduction_correct (rows rows' : List FeedRow) (z : String)
    (hd : distinctDatesPerZip rows) (hp : rows.Perm rows') :
    ((∃ r ∈ rows, r.zip_code = z) →
      ∃ r, latestRecords rows z = some r ∧ r.zip_code = z ∧ r ∈ rows ∧
        ∀ x ∈ rows, x.zip_code = z → x.period_end ≤ r.period_end)
    ∧ latestRecords rows z = latestRecords rows' z
    ∧ (∀ chunks : List (List FeedRow), chunks.flatten = rows →
        latestRecordsChunked chunks z = latestRecords rows z) := by
  refine ⟨?_, ?_, ?_⟩
  · rintro ⟨r0, hr0, hz0⟩
    have hne : rows.filter (fun r => r.zip_code == z) ≠ [] := by
      intro hnil
      have : r0 ∈ rows.filter (fun r => r.zip_code == z) :=
        List.mem_filter.mpr ⟨hr0, by simpa using hz0⟩
      rw [hnil] at this
      cases this
    obtain ⟨r, hr⟩ := Option.isSome_iff_exists.mp (bestRow_isSome_of_ne_nil _ hne)
    obtain ⟨hmem, hmax⟩ := bestRow_spec _ r hr
    have hmf := List.mem_filter.mp hmem
    refine ⟨r, by rw [latestRecords_eq_bestRow, hr], by simpa using hmf.2, hmf.1, ?_⟩
    intro x hx hxz
    exact hmax x (List.mem_filter.mpr ⟨hx, by simpa using hxz⟩)
  · rw [latestRecords_eq_bestRow, latestRecords_eq_bestRow]
    exact bestRow_eq_of_perm _ _ (hp.filter _) (hd z)
  · intro chunks hflat
    unfold latestRecordsChunked latestRecords
    rw [← hflat, List.foldl_flatten]

/-- C2 witness: the reduction on `[A@Jan, A@Mar, A@Feb]` agrees with the
reduction on a permutation, via `latest_record_reduction_correct`. -/
theorem latest_record_reduction_correct_witness :
    distinctDatesPerZip exRows ∧ exRows.Perm exRowsPerm ∧
      latestRecords exRows "A" = latestRecords exRowsPerm "A" := by
  have hd : distinctDatesPerZip exRows := by
    intro z
    cases hb : (("A" : String) == z) <;>
      simp [exRows, List.filter, hb]
  have hp : exRows.Perm exRowsPerm := by decide
  exact ⟨hd, hp, (latest_record_reduction_correct exRows exRowsPerm "A" hd hp).2.1⟩

/-! ### Formatter branch evaluation -/

theorem pyRound_zero (n : ℕ) : pyRound 0 n = 0 := by
  unfold pyRound
  rw [zero_mul, show (0 : ℚ) = ((0 : ℤ) : ℚ) by norm_num, roundHalfEven_intCast]
  norm_num

theorem formatValue_missing (k : String) (v : PyVal) (h : isMissing v = true) :
    formatValue k v = .none := by
  simp [formatValue, h]

theorem formatValue_none_val (k : String) : formatValue k .none = .none := rfl

theorem formatTry_period_end (v : PyVal) :
    formatTry "period_end" v
      = .ok (match v with
             | .date y m d => .str (fmtDate y m d)
             | v => .str (strTake10 (pyStr v))) := by
  unfold formatTry
  rw [if_pos rfl]
  cases v <;> rfl

theorem formatTry_latlng (k : String) (hk : k = "lat" ∨ k = "lng") (v : PyVal) :
    formatTry k v = (pyFloat v).map (fun q => .num (pyRound q 5)) := by
  have h1 : ¬ k = "period_end" := by rcases hk with rfl | rfl <;> decide
  unfold formatTry
  rw [if_neg h1, if_pos hk]

theorem formatTry_ppsf (v : PyVal) :
    formatTry "median_ppsf" v = (pyFloat v).map (fun q => .num (pyRound q 2)) := by
  unfold formatTry
  rw [if_neg (by decide), if_neg (by decide), if_pos rfl]

theorem formatTry_avg (v : PyVal) :
    formatTry "avg_sale_to_list_ratio" v
      = (pyFloat v).map (fun q => .num (pyRound (q * 100) 1)) := by
  unfold formatTry
  rw [if_neg (by decide), if_neg (by decide), if_neg (by decide), if_pos rfl]

theorem formatTry_pct (k : String) (h1 : ¬ k = "period_end") (h2 : ¬ (k = "lat" ∨ k = "lng"))
    (h3 : ¬ k = "median_ppsf") (h4 : ¬ k = "avg_sale_to_list_ratio")
    (h5 : pctMarkers.any (fun p => strContains k p) = true)
    (h6 : strContains k "dom" = false) (v : PyVal) :
    formatTry k v = (pyFloat v).map (fun q => .num (pyRound (q * 100) 1)) := by
  unfold formatTry
  rw [if_neg h1, if_neg h2, if_neg h3, if_neg h4, if_pos h5, if_neg (by simp [h6])]

theorem formatTry_dompct (k : String) (h1 : ¬ k = "period_end")
    (h2 : ¬ (k = "lat" ∨ k = "lng")) (h3 : ¬ k = "median_ppsf")
    (h4 : ¬ k = "avg_sale_to_list_ratio")
    (h5 : pctMarkers.any (fun p => strContains k p) = true)
    (h6 : strContains k "dom" = true) (v : PyVal) :
    formatTry k v = (pyFloat v).map (fun q => .num (pyRound q 1)) := by
  unfold formatTry
  rw [if_neg h1, if_neg h2, if_neg h3, if_neg h4, if_pos h5, if_pos h6]

theorem formatTry_int (k : String) (h1 : ¬ k = "period_end")
    (h2 : ¬ (k = "lat" ∨ k = "lng")) (h3 : ¬ k = "median_ppsf")
    (h4 : ¬ k = "avg_sale_to_list_ratio")
    (h5 : ¬ pctMarkers.any (fun p => strContains k p) = true)
    (h7 : intMarkers.any (fun p => strContains k p) = true) (v : PyVal) :
    formatTry k v = (pyFloat v).map (fun q => .num ((pyTrunc q : ℤ) : ℚ)) := by
  unfold formatTry
  rw [if_neg h1, if_neg h2, if_neg h3, if_neg h4, if_neg h5, if_pos h7]

theorem formatTry_id (k : String) (h1 : ¬ k = "period_end")
    (h2 : ¬ (k = "lat" ∨ k = "lng")) (h3 : ¬ k = "median_ppsf")
    (h4 : ¬ k = "avg_sale_to_list_ratio")
    (h5 : ¬ pctMarkers.any (fun p => strContains k p) = true)
    (h7 : ¬ intMarkers.any (fun p => strContains k p) = true) (v : PyVal) :
    formatTry k v = .ok v := by
  unfold formatTry
  rw [if_neg h1, if_neg h2, if_neg h3, if_neg h4, if_neg h5, if_neg h7]

/-! ### C4: formatter idempotence -/

theorem formatValue_map_round_idem (k : String) (n : ℕ)
    (he : ∀ v, formatTry k v = (pyFloat v).map (fun q => .num (pyRound q n)))
    (v : PyVal) : formatValue k (formatValue k v) = formatValue k v := by
  by_cases hm : isMissing v = true
  · rw [formatValue_missing k v hm, formatValue_none_val]
  · have hm' : isMissing v = false := by simpa using hm
    cases hf : pyFloat v with
    | error e =>
        have h1 : formatValue k v = .none := by simp [formatValue, hm', he, hf, Except.map]
        rw [h1, formatValue_none_val]
    | ok q =>
        have h1 : formatValue k v = .num (pyRound q n) := by
          simp [formatValue, hm', he, hf, Except.map]
        rw [h1]
        have h2 : formatValue k (.num (pyRound q n)) = .num (pyRound (pyRound q n) n) := by
          simp [formatValue, he, isMissing, pyFloat, Except.map]
        rw [h2, pyRound_idem]

theorem formatValue_map_trunc_idem (k : String)
    (he : ∀ v, formatTry k v = (pyFloat v).map (fun q => .num ((pyTrunc q : ℤ) : ℚ)))
    (v : PyVal) : formatValue k (formatValue k v) = formatValue k v := by
  by_cases hm : isMissing v = true
  · rw [formatValue_missing k v hm, formatValue_none_val]
  · have hm' : isMissing v = false := by simpa using hm
    cases hf : pyFloat v with
    | error e =>
        have h1 : formatValue k v = .none := by simp [formatValue, hm', he, hf, Except.map]
        rw [h1, formatValue_none_val]
    | ok q =>
        have h1 : formatValue k v = .num ((pyTrunc q : ℤ) : ℚ) := by
          simp [formatValue, hm', he, hf, Except.map]
        rw [h1]
        have h2 : formatValue k (.num ((pyTrunc q : ℤ) : ℚ))
            = .num ((pyTrunc ((pyTrunc q : ℤ) : ℚ) : ℤ) : ℚ) := by
          simp [formatValue, he, isMissing, pyFloat, Except.map]
        rw [h2, pyTrunc_intCast]

theorem formatValue_id_idem (k : String) (he : ∀ v, formatTry k v = .ok v) (v : PyVal) :
    formatValue k (formatValue k v) = formatValue k v := by
  by_cases hm : isMissing v = true
  · rw [formatValue_missing k v hm, formatValue_none_val]
  · have hm' : isMissing v = false := by simpa using hm
    have h1 : formatValue k v = v := by simp [formatValue, hm', he]
    rw [h1, h1]

theorem formatValue_scaled_zero (k : String)
    (he : ∀ v, formatTry k v = (pyFloat v).map (fun q => .num (pyRound (q * 100) 1))) :
    formatValue k (.num 0) = .num 0 := by
  have h : formatValue k (.num 0) = .num (pyRound (0 * 100) 1) := by
    simp [formatValue, he, isMissing, pyFloat, Except.map]
  rw [h, zero_mul, pyRound_zero]

theorem strTake10_stable (s : String) : strTake10 (strTake10 s) = strTake10 s := by
  unfold strTake10
  rw [show (String.mk (s.toList.take 10)).toList = s.toList.take 10 from rfl,
    List.take_take]
  norm_num

theorem strTake10_ne_empty (s : String) (h : s ≠ "") : strTake10 s ≠ "" := by
  intro he
  apply h
  have h10 : s.toList.take 10 = [] := by
    have := congrArg String.toList he
    simpa [strTake10] using this
  cases s with
  | mk data =>
      cases data with
      | nil => rfl
      | cons c cs =>
          rw [show (String.mk (c :: cs)).toList = c :: cs from rfl] at h10
          simp [List.take_succ_cons] at h10

theorem formatValue_period_end_shape (v : PyVal) :
    formatValue "period_end" v = .none ∨
      ∃ s, formatValue "period_end" v = .str s := by
  by_cases hm : isMissing v = true
  · exact Or.inl (formatValue_missing _ v hm)
  · have hm' : isMissing v = false := by simpa using hm
    cases v with
    | none => simp [isMissing] at hm'
    | nan => simp [isMissing] at hm'
    | num q =>
        exact Or.inr ⟨strTake10 (pyStr (PyVal.num q)),
          by simp [formatValue, hm', formatTry_period_end]⟩
    | str s =>
        exact Or.inr ⟨strTake10 (pyStr (PyVal.str s)),
          by simp [formatValue, hm', formatTry_period_end]⟩
    | date y m d =>
        exact Or.inr ⟨fmtDate y m d,
          by simp [formatValue, hm', formatTry_period_end]⟩

theorem formatValue_period_end_idem (v : PyVal)
    (hpe : ∀ s, formatValue "period_end" v = .str s → s ≠ "" ∧ strTake10 s = s) :
    formatValue "period_end" (formatValue "period_end" v)
      = formatValue "period_end" v := by
  rcases formatValue_period_end_shape v with h | ⟨s, h⟩
  · rw [h, formatValue_none_val]
  · obtain ⟨hne, hstable⟩ := hpe s h
    rw [h]
    have hm : isMissing (PyVal.str s) = false := by simpa [isMissing] using hne
    simp [formatValue, hm, formatTry_period_end, pyStr, hstable]

/-- C4 amended: formatting is idempotent on every record whose formatted
×100-scaled fields are all null or zero and whose formatted `period_end`
text is nonempty and at most 10 characters (both always true for real
pipeline data; the ×100 restriction is forced by
`formatter_idempotence_counterexample`). -/
theorem formatter_idempotence_amended (raw : Record)
    (hpct : ∀ k, scaledKey k →
      formatValue k (dget raw k) = .none ∨ formatValue k (dget raw k) = .num 0)
    (hpe : ∀ s, formatValue "period_end" (dget raw "period_end") = .str s →
      s ≠ "" ∧ strTake10 s = s) :
    formatRecord (formatRecord raw) = formatRecord raw := by
  have key : ∀ k, k ∈ key_order →
      formatValue k (formatValue k (dget raw k)) = formatValue k (dget raw k) := by
    intro k _
    by_cases h1 : k = "period_end"
    · subst h1
      exact formatValue_period_end_idem _ hpe
    by_cases h2 : k = "lat" ∨ k = "lng"
    · exact formatValue_map_round_idem k 5 (formatTry_latlng k h2) _
    by_cases h3 : k = "median_ppsf"
    · subst h3
      exact formatValue_map_round_idem _ 2 formatTry_ppsf _
    by_cases h4 : k = "avg_sale_to_list_ratio"
    · subst h4
      have hs : scaledKey "avg_sale_to_list_ratio" :=
        ⟨by decide, by decide, by decide, by decide, Or.inl rfl⟩
      rcases hpct _ hs with h | h
      · rw [h, formatValue_none_val]
      · rw [h, formatValue_scaled_zero _ formatTry_avg]
    by_cases h5 : pctMarkers.any (fun p => strContains k p) = true
    · by_cases h6 : strContains k "dom" = true
      · exact formatValue_map_round_idem k 1 (formatTry_dompct k h1 h2 h3 h4 h5 h6) _
      · have h6' : strContains k "dom" = false := by simpa using h6
        have hs : scaledKey k :=
          ⟨h1, fun h => h2 (Or.inl h), fun h => h2 (Or.inr h), h3, Or.inr ⟨h5, h6'⟩⟩
        have he := formatTry_pct k h1 h2 h3 h4 h5 h6'
        rcases hpct k hs with h | h
        · rw [h, formatValue_none_val]
        · rw [h, formatValue_scaled_zero k he]
    by_cases h7 : intMarkers.any (fun p => strContains k p) = true
    · exact formatValue_map_trunc_idem k (formatTry_int k h1 h2 h3 h4 h5 h7) _
    · exact formatValue_id_idem k (formatTry_id k h1 h2 h3 h4 h5 h7) _
  calc formatRecord (formatRecord raw)
      = key_order.map (fun k => (k, formatValue k (dget (formatRecord raw) k))) := rfl
    _ = key_order.map (fun k => (k, formatValue k (dget raw k))) :=
        List.map_eq_map_iff.mpr (fun k hk => by rw [dget_formatRecord raw k hk, key k hk])
    _ = formatRecord raw := rfl

/-- C4 witness: the empty raw record satisfies both side conditions and
re-formatting its formatted form is a no-op. -/
theorem formatter_idempotence_amended_witness :
    formatRecord (formatRecord []) = formatRecord [] :=
  formatter_idempotence_amended []
    (fun _ _ => Or.inl rfl)
    (fun _ h => nomatch h)

/-- C4 counterexample: the already-formatted record obtained from a raw
`sold_above_list = 0.5` (formatted value `50.0`) re-formats to `5000.0`,
so formatting an already-formatted record is not the identity. -/
theorem formatter_idempotence_counterexample :
    formatRecord (formatRecord exRawPct) ≠ formatRecord exRawPct := by
  intro h
  have h2 := congrArg (fun r => dget r "sold_above_list") h
  simp only at h2
  rw [dget_formatRecord, dget_formatRecord] at h2
  rotate_left
  · decide
  · decide
  have hget : dget exRawPct "sold_above_list" = PyVal.num (1/2) := rfl
  rw [hget] at h2
  have he := formatTry_pct "sold_above_list" (by decide) (by decide) (by decide)
    (by decide) (by decide) (by decide)
  have e1 : formatValue "sold_above_list" (PyVal.num (1/2))
      = PyVal.num (pyRound ((1/2) * 100) 1) := by
    simp [formatValue, he, isMissing, pyFloat, Except.map]
  have e1' : pyRound ((1/2 : ℚ) * 100) 1 = 50 := by
    norm_num [pyRound, roundHalfEven, evenInt]
  have e2 : formatValue "sold_above_list" (PyVal.num 50)
      = PyVal.num (pyRound ((50 : ℚ) * 100) 1) := by
    simp [formatValue, he, isMissing, pyFloat, Except.map]
  have e2' : pyRound ((50 : ℚ) * 100) 1 = 5000 := by
    norm_num [pyRound, roundHalfEven, evenInt]
  rw [e1, e1', e2, e2'] at h2
  have : (5000 : ℚ) = 50 := by injection h2
  norm_num at this

/-! ### C5: percentage conversion -/

/-- C5 counterexample: `median_dom_mom` contains the `_mom` percentage
marker, yet its raw value 0.2 formats to 0.2 (rounded to 1 decimal,
unscaled) rather than to 0.2 × 100 = 20.0. -/
theorem percent_conversion_counterexample :
    pctMarkers.any (fun p => strContains "median_dom_mom" p) = true
    ∧ formatValue "median_dom_mom" (PyVal.num (1/5)) = PyVal.num (1/5)
    ∧ PyVal.num (1/5) ≠ PyVal.num (pyRound ((1/5 : ℚ) * 100) 1) := by
  refine ⟨by decide, ?_, ?_⟩
  · have he := formatTry_dompct "median_dom_mom" (by decide) (by decide) (by decide)
      (by decide) (by decide) (by decide)
    have h : formatValue "median_dom_mom" (PyVal.num (1/5)) = .num (pyRound (1/5) 1) := by
      simp [formatValue, he, isMissing, pyFloat, Except.map]
    rw [h]
    have : pyRound ((1/5 : ℚ)) 1 = 1/5 := by
      norm_num [pyRound, roundHalfEven, evenInt]
    rw [this]
  · intro h
    have h5 : (1/5 : ℚ) = pyRound ((1/5 : ℚ) * 100) 1 := by injection h
    have : pyRound ((1/5 : ℚ) * 100) 1 = 20 := by
      norm_num [pyRound, roundHalfEven, evenInt]
    rw [this] at h5
    norm_num at h5

/-- C5 amended: every field caught by the ×100 branch (ratio-marked
without `dom`, or the flagged `avg_sale_to_list_ratio`) formats a raw
fraction `v` to `v * 100` rounded to 1 decimal, and missing/NaN to null;
the marker-carrying `median_dom_*` fields are the exception forced by
`percent_conversion_counterexample`: they round to 1 decimal unscaled. -/
theorem percent_conversion_amended (k : String) (q : ℚ) :
    (scaledKey k →
      formatValue k (PyVal.num q) = PyVal.num (pyRound (q * 100) 1)
      ∧ formatValue k PyVal.nan = PyVal.none
      ∧ formatValue k PyVal.none = PyVal.none)
    ∧ (domPctKey k → formatValue k (PyVal.num q) = PyVal.num (pyRound q 1)) := by
  constructor
  · rintro ⟨h1, hlat, hlng, h3, hor⟩
    refine ⟨?_, formatValue_missing _ _ rfl, rfl⟩
    by_cases h4 : k = "avg_sale_to_list_ratio"
    · subst h4
      simp [formatValue, formatTry_avg, isMissing, pyFloat, Except.map]
    · rcases hor with h4' | ⟨h5, h6⟩
      · exact absurd h4' h4
      · have he := formatTry_pct k h1 (fun h => h.elim hlat hlng) h3 h4 h5 h6
        simp [formatValue, he, isMissing, pyFloat, Except.map]
  · rintro ⟨h1, hlat, hlng, h3, h4, h5, h6⟩
    have he := formatTry_dompct k h1 (fun h => h.elim hlat hlng) h3 h4 h5 h6
    simp [formatValue, he, isMissing, pyFloat, Except.map]

/-- C5 witness: `sold_above_list` is scaled and raw 0.05 formats to 5.0,
via `percent_conversion_amended`. -/
theorem percent_conversion_amended_witness :
    scaledKey "sold_above_list"
    ∧ formatValue "sold_above_list" (PyVal.num (1/20)) = PyVal.num 5 := by
  have hs : scaledKey "sold_above_list" :=
    ⟨by decide, by decide, by decide, by decide, Or.inr ⟨by decide, by decide⟩⟩
  refine ⟨hs, ?_⟩
  rw [((percent_conversion_amended "sold_above_list" (1/20)).1 hs).1]
  have : pyRound ((1/20 : ℚ) * 100) 1 = 5 := by
    norm_num [pyRound, roundHalfEven, evenInt]
  rw [this]

/-! ### C6: null handling and per-field error recovery -/

/-- C6: a missing / NaN / empty-string value (of any `key_order` field)
formats to null; a `ValueError`/`TypeError` in one field's `try:` block
makes only that field null; the record is never aborted — it carries all
and only the `key_order` fields, each formatted from its own raw value
independently of every other field. -/
theorem format_null_and_error_localization (raw : Record) (k : String)
    (hk : k ∈ key_order) :
    ((dget raw k = .none ∨ dget raw k = .nan ∨ dget raw k = .str "") →
      dget (formatRecord raw) k = .none)
    ∧ (∀ e, formatTry k (dget raw k) = .error e → dget (formatRecord raw) k = .none)
    ∧ (formatRecord raw).map Prod.fst = key_order
    ∧ (∀ k', k' ∈ key_order →
        dget (formatRecord raw) k' = formatValue k' (dget raw k')) := by
  refine ⟨?_, ?_, formatRecord_keys raw, fun k' hk' => dget_formatRecord raw k' hk'⟩
  · intro hmiss
    rw [dget_formatRecord raw k hk]
    apply formatValue_missing
    rcases hmiss with h | h | h <;> rw [h] <;> rfl
  · intro e herr
    rw [dget_formatRecord raw k hk]
    by_cases hm : isMissing (dget raw k) = true
    · exact formatValue_missing _ _ hm
    · have hm' : isMissing (dget raw k) = false := by simpa using hm
      simp [formatValue, hm', herr]

/-- C6 witness: on a record whose `lat` is the unparseable string
`"abc"`, `lat` formats to null while `city` is still formatted, via
`format_null_and_error_localization`. -/
theorem format_null_and_error_localization_witness :
    dget (formatRecord exRawErr) "lat" = PyVal.none
    ∧ dget (formatRecord exRawErr) "city" = PyVal.str "Austin" := by
  have h := format_null_and_error_localization exRawErr "lat" (by decide)
  refine ⟨h.2.1 () rfl, ?_⟩
  rw [h.2.2.2 "city" (by decide)]
  decide

/-! ### C7: assembly overlay -/

theorem orO_none {α : Type} (o : Option α) : orO Option.none o = o := rfl

theorem orO_some {α : Type} (v : α) (o : Option α) : orO (some v) o = some v := rfl

theorem alookup_append {α : Type} (A B : List (String × α)) (k : String) :
    alookup (A ++ B) k = orO (alookup A k) (alookup B k) := by
  induction A with
  | nil => rfl
  | cons p ps ih =>
      simp only [List.cons_append, alookup_cons]
      by_cases hp : p.1 = k
      · rw [if_pos hp, if_pos hp, orO_some]
      · rw [if_neg hp, if_neg hp, ih]

theorem alookup_dUpdate_left (a b : Record) (k : String) :
    alookup (a.map (fun p => (p.1, (alookup b p.1).getD p.2))) k
      = (alookup a k).map (fun v => (alookup b k).getD v) := by
  induction a with
  | nil => rfl
  | cons p ps ih =>
      simp only [List.map_cons, alookup_cons]
      by_cases hp : p.1 = k
      · subst hp; simp
      · simp only [hp, if_false, ih]

theorem alookup_dUpdate_right (a b : Record) (k : String) :
    alookup (b.filter (fun p => (alookup a p.1).isNone)) k
      = if (alookup a k).isNone then alookup b k else Option.none := by
  induction b with
  | nil => simp [alookup]
  | cons p ps ih =>
      by_cases hp : (alookup a p.1).isNone = true
      · simp only [List.filter_cons, hp, if_true, alookup_cons]
        by_cases hk : p.1 = k
        · subst hk; simp [hp]
        · simp only [hk, if_false, ih]
      · have hp' : (alookup a p.1).isNone = false := Bool.eq_false_iff.mpr hp
        simp only [List.filter_cons, hp', Bool.false_eq_true, if_false]
        rw [ih, alookup_cons]
        by_cases hk : p.1 = k
        · subst hk
          simp [hp']
        · rw [if_neg hk]

theorem alookup_dUpdate (a b : Record) (k : String) :
    alookup (dUpdate a b) k = orO (alookup b k) (alookup a k) := by
  unfold dUpdate
  rw [alookup_append, alookup_dUpdate_left, alookup_dUpdate_right]
  cases ha : alookup a k <;> cases hb : alookup b k <;> simp [orO]

/-- C7: the assembled dataset's key list is exactly the mapping's key
list (feed data for unmapped ZIPs contributes nothing), each record is
the formatted `raw_data` of its ZIP, and `raw_data` resolves every field
by Zillow first, then renamed Redfin, then the mapping base — later
sources overwriting earlier ones. -/
theorem assemble_overlay_correct (zip_mapping : List (String × Record))
    (latest : String → Option Record) (zillow : String → Option Record) :
    (assembleOutput zip_mapping latest zillow).map Prod.fst = zip_mapping.map Prod.fst
    ∧ (∀ z zm, alookup zip_mapping z = some zm →
        alookup (assembleOutput zip_mapping latest zillow) z
          = some (formatRecord (buildRaw zm (latest z) (zillow z))))
    ∧ (∀ zm redfin zillow2 k,
        alookup (buildRaw zm redfin zillow2) k
          = orO (sourceLookup zillow2 k)
              (orO (sourceLookup (redfin.map colMapRename) k)
                (alookup (mapBase zm) k))) := by
  refine ⟨?_, ?_, ?_⟩
  · unfold assembleOutput
    rw [List.map_map]
    rfl
  · intro z zm hz
    induction zip_mapping with
    | nil => simp [alookup] at hz
    | cons p ps ih =>
        unfold assembleOutput
        simp only [List.map_cons, alookup_cons] at hz ⊢
        by_cases hp : p.1 = z
        · rw [if_pos hp] at hz ⊢
          cases hz
          rw [hp]
        · rw [if_neg hp] at hz ⊢
          exact ih hz
  · intro zm redfin zillow2 k
    have hred : ∀ base : Record, alookup (withRedfin base redfin) k
        = orO (sourceLookup (redfin.map colMapRename) k) (alookup base k) := by
      intro base
      cases redfin with
      | none => simp [withRedfin, sourceLookup, orO_none]
      | some rd =>
          by_cases hrd : rd = []
          · subst hrd
            simp [withRedfin, sourceLookup, colMapRename, alookup, orO_none]
          · simp only [withRedfin, if_neg hrd, sourceLookup, Option.map_some']
            exact alookup_dUpdate base (colMapRename rd) k
    cases zillow2 with
    | none =>
        simp only [buildRaw, withZillow, sourceLookup, orO_none]
        exact hred (mapBase zm)
    | some zd =>
        simp only [buildRaw, withZillow]
        rw [alookup_dUpdate, hred]
        rfl

/-- C7 witness: on a one-entry mapping with no feed data, the assembled
record for its ZIP is the formatted overlay, via
`assemble_overlay_correct`. -/
theorem assemble_overlay_correct_witness :
    alookup (assembleOutput exOut (fun _ => Option.none) (fun _ => Option.none)) "00001"
      = some (formatRecord (buildRaw [("x", PyVal.num 1)] Option.none Option.none)) :=
  (assemble_overlay_correct exOut (fun _ => Option.none) (fun _ => Option.none)).2.1
    "00001" [("x", PyVal.num 1)] rfl

/-! ### C8: columnar invariants -/

theorem getD_map_lt {α β : Type} (f : α → β) (l : List α) (i : ℕ) (h : i < l.length)
    (d : β) (d' : α) : (l.map f).getD i d = f (l.getD i d') := by
  induction l generalizing i with
  | nil => simp at h
  | cons x xs ih =>
      cases i with
      | zero => rfl
      | succ n =>
          simp only [List.map_cons, List.getD_cons_succ]
          exact ih n (by simpa using h)

/-- C8: in the columnar output, `d` has one row per entry of `z`, every
row has one entry per field of `f = key_order`, and entry `d[i][j]` is
field `f[j]` of the record for ZIP `z[i]`. -/
theorem columnar_invariants (output : List (String × Record)) :
    (columnarD output).length = (columnarZ output).length
    ∧ (∀ row ∈ columnarD output, row.length = key_order.length)
    ∧ (∀ i j, i < (columnarZ output).length → j < key_order.length →
        ((columnarD output).getD i []).getD j PyVal.none
          = dget ((alookup output ((columnarZ output).getD i "")).getD [])
              (key_order.getD j "")) := by
  refine ⟨by simp [columnarD], ?_, ?_⟩
  · intro row hrow
    unfold columnarD at hrow
    obtain ⟨z, hz, rfl⟩ := List.mem_map.mp hrow
    simp
  · intro i j hi hj
    unfold columnarD
    rw [getD_map_lt _ _ i hi [] "", getD_map_lt _ _ j hj PyVal.none ""]

/-- C8 witness: the positional-alignment clause of `columnar_invariants`
applied at `i = j = 0` of a one-record dataset. -/
theorem columnar_invariants_witness :
    ((columnarD exOut).getD 0 []).getD 0 PyVal.none
      = dget ((alookup exOut ((columnarZ exOut).getD 0 "")).getD [])
          (key_order.getD 0 "") :=
  (columnar_invariants exOut).2.2 0 0 (by decide) (by decide)

/-! ### C1: timestamp no-op policy -/

/-- C1 counterexample: with a previous file present but carrying no
`last_updated_utc` (the old keyed format written by
`parse_redfin_zip_data.py` carries none) and both change counts zero, the
fresh current timestamp is still written — though the claim allows a
fresh timestamp only for nonzero counts or a missing previous file. -/
theorem timestamp_claim_counterexample :
    (some { last_updated_utc := Option.none, zips := [] } : Option OldPayload) ≠ Option.none
    ∧ (0 : ℕ) = 0 ∧ (0 : ℕ) = 0
    ∧ timestampToUse
        (readOldTimestamp (some { last_updated_utc := Option.none, zips := [] })) 0 0
        "2026-02-03T00:00:00+00:00"
      = "2026-02-03T00:00:00+00:00"
    ∧ readOldTimestamp (some { last_updated_utc := Option.none, zips := [] })
      = Option.none :=
  ⟨by simp, rfl, rfl, rfl, rfl⟩

/-- C1 amended: the current timestamp is used exactly when no previous
timestamp was available (no previous file, unreadable file, or a file
without the `last_updated_utc` field — the case the claim misses) or a
change count is nonzero; with both counts zero and a previous timestamp
present, that timestamp is carried forward unchanged. -/
theorem timestamp_policy_amended (prev : Option OldPayload) (zc dp : ℕ) (current : String) :
    ((readOldTimestamp prev = Option.none ∨ 0 < zc ∨ 0 < dp) →
      timestampToUse (readOldTimestamp prev) zc dp current = current)
    ∧ (∀ t, readOldTimestamp prev = some t → zc = 0 → dp = 0 →
        timestampToUse (readOldTimestamp prev) zc dp current = t) := by
  constructor
  · intro h
    cases hr : readOldTimestamp prev with
    | none => rfl
    | some t =>
        rw [hr] at h
        rcases h with h | h | h
        · cases h
        · simp [timestampToUse, h]
        · simp [timestampToUse, h]
  · intro t ht hzc hdp
    rw [ht]
    subst hzc
    subst hdp
    simp [timestampToUse]

/-- C1 witness: a previous payload with timestamp `"A"` and zero counts
keeps `"A"`, via `timestamp_policy_amended`. -/
theorem timestamp_policy_amended_witness :
    timestampToUse
      (readOldTimestamp (some { last_updated_utc := some "A", zips := [] })) 0 0 "B"
      = "A" :=
  (timestamp_policy_amended (some { last_updated_utc := some "A", zips := [] })
    0 0 "B").2 "A" rfl rfl rfl

/-! ### C3: diff counting -/

/-- C3 counterexample: on the spec's own example the changed-ZIP count is
2 but the changed-field count is 1, not ≥ 2 — the `x` field of the added
ZIP `00002` is never visited because the field loop runs only over ZIPs
common to both datasets. -/
theorem diff_example_counterexample :
    computeDiff exNew exOld = (2, 1) ∧ ¬ 2 ≤ (computeDiff exNew exOld).2 := by
  refine ⟨?_, ?_⟩ <;> decide

/-- C3 amended: the field counter counts exactly one per field of the new
record whose value differs from the old record's `get` of that key (so a
new field of an existing ZIP counts when its value is non-null), fields
of added or removed ZIPs are not counted, and on the spec's example the
counts are changed-ZIP = 2 and changed-field = 1. -/
theorem diff_field_count_amended (newRec oldRec : Record) :
    countFieldChanges newRec oldRec
      = (newRec.filter (fun p => decide (p.2 ≠ dget oldRec p.1))).length
    ∧ computeDiff exNew exOld = (2, 1) := by
  constructor
  · induction newRec with
    | nil => rfl
    | cons p ps ih =>
        unfold countFieldChanges at ih ⊢
        rw [List.map_cons, List.sum_cons, List.filter_cons]
        by_cases hp : p.2 = dget oldRec p.1
        · have hd : decide (p.2 ≠ dget oldRec p.1) = false := by simp [hp]
          rw [if_neg (fun h => h hp), hd]
          simp only [Bool.false_eq_true, if_false]
          rw [Nat.zero_add, ih]
        · have hd : decide (p.2 ≠ dget oldRec p.1) = true := by simp [hp]
          rw [if_pos hp, hd]
          simp only [if_true]
          rw [List.length_cons, ih]
          omega
  · decide

/-! ### C10: `process_zillow_data` -/

theorem alookup_dinsert {α : Type} (l : List (String × α)) (k k' : String) (v : α) :
    alookup (dinsert l k v) k' = if k = k' then some v else alookup l k' := by
  induction l with
  | nil => rfl
  | cons p ps ih =>
      unfold dinsert
      by_cases hp : p.1 = k
      · rw [if_pos hp]
        simp only [alookup_cons]
        by_cases hk : k = k'
        · rw [if_pos hk, if_pos hk]
        · rw [if_neg hk, if_neg hk, if_neg (fun h => hk (hp ▸ h))]
      · rw [if_neg hp]
        simp only [alookup_cons, ih]
        by_cases hpk : p.1 = k'
        · rw [if_pos hpk, if_neg (fun h => hp (hpk.trans h.symm)), if_pos hpk]
        · rw [if_neg hpk, if_neg hpk]

theorem zillowFold_lookup (curr mom yoy z : String) (rows : List ZillowRow) :
    ∀ acc : List (String × ZillowEntry),
      alookup (rows.foldl (fun acc r =>
          match r.cells curr with
          | Option.none => acc
          | some val => dinsert acc (zfill5 r.regionName) (mkZillowEntry mom yoy r val)) acc) z
        = match (rows.filter
            (fun r => zfill5 r.regionName == z && (r.cells curr).isSome)).getLast? with
          | some r => some (mkZillowEntry mom yoy r ((r.cells curr).getD 0))
          | Option.none => alookup acc z := by
  induction rows with
  | nil => intro acc; rfl
  | cons r rows ih =>
      intro acc
      rw [List.foldl_cons, ih, List.filter_cons]
      by_cases hpred : (zfill5 r.regionName == z && (r.cells curr).isSome) = true
      · rw [if_pos hpred]
        obtain ⟨hz, hsome⟩ := by simpa [Bool.and_eq_true] using hpred
        have hzeq : zfill5 r.regionName = z := by simpa using hz
        obtain ⟨val, hval⟩ := Option.isSome_iff_exists.mp hsome
        cases hfr : (rows.filter
            (fun r => zfill5 r.regionName == z && (r.cells curr).isSome)).getLast? with
        | some r' =>
            have hne : rows.filter
                (fun r => zfill5 r.regionName == z && (r.cells curr).isSome) ≠ [] := by
              intro h
              rw [h] at hfr
              cases hfr
            cases hfl : rows.filter
                (fun r => zfill5 r.regionName == z && (r.cells curr).isSome) with
            | nil => exact absurd hfl hne
            | cons b t =>
                rw [hfl] at hfr
                rw [show (r :: b :: t).getLast? = (b :: t).getLast? from rfl, hfr]
        | none =>
            have hfl := List.getLast?_eq_none_iff.mp hfr
            rw [hfl]
            rw [show ([r] : List ZillowRow).getLast? = some r from rfl]
            rw [hval]
            show alookup (dinsert acc (zfill5 r.regionName) (mkZillowEntry mom yoy r val)) z
              = some (mkZillowEntry mom yoy r ((r.cells curr).getD 0))
            rw [alookup_dinsert, if_pos hzeq, hval]
            rfl
      · rw [if_neg hpred]
        have hstep : alookup (match r.cells curr with
            | Option.none => acc
            | some val => dinsert acc (zfill5 r.regionName) (mkZillowEntry mom yoy r val)) z
            = alookup acc z := by
          cases hc : r.cells curr with
          | none => rfl
          | some val =>
              have hz : ¬ zfill5 r.regionName = z := by
                intro h
                exact hpred (by simp [h, hc])
              show alookup (dinsert acc (zfill5 r.regionName)
                  (mkZillowEntry mom yoy r val)) z = alookup acc z
              rw [alookup_dinsert, if_neg hz]
        cases hfr : (rows.filter
            (fun r => zfill5 r.regionName == z && (r.cells curr).isSome)).getLast? <;>
          rw [hstep]

/-- C10 amended: fewer than 13 date columns give the empty result;
otherwise the entry for a key is built from the last input row whose
zfill-5 region name is that key and whose latest-column value is non-NaN
(so the key set is exactly those rows' keys), and the MOM/YOY ratio of an
entry is `None` exactly when the comparison cell is zero, while a NaN
comparison cell propagates NaN (not `None` — the correction forced by
`zillow_nan_mom_counterexample`). -/
theorem process_zillow_amended (t : ZillowTable) (z : String) :
    ((dateColsOf t).length < 13 → process_zillow_data t = [])
    ∧ (¬ (dateColsOf t).length < 13 →
        alookup (process_zillow_data t) z
          = match lastContrib t (currCol t) z with
            | some r => some (mkZillowEntry (momCol t) (yoyCol t) r
                ((r.cells (currCol t)).getD 0))
            | Option.none => Option.none)
    ∧ (¬ (dateColsOf t).length < 13 →
        ((alookup (process_zillow_data t) z).isSome ↔
          ∃ r ∈ t.rows, zfill5 r.regionName = z ∧ (r.cells (currCol t)).isSome))
    ∧ (∀ val cmp, (ratioOrNone val cmp = Option.none ↔ cmp = some 0)
        ∧ (cmp = Option.none → ratioOrNone val cmp = some Option.none)) := by
  have hchar : ¬ (dateColsOf t).length < 13 →
      alookup (process_zillow_data t) z
        = match lastContrib t (currCol t) z with
          | some r => some (mkZillowEntry (momCol t) (yoyCol t) r
              ((r.cells (currCol t)).getD 0))
          | Option.none => Option.none := by
    intro h
    unfold process_zillow_data
    rw [if_neg h]
    exact zillowFold_lookup (currCol t) (momCol t) (yoyCol t) z t.rows []
  refine ⟨?_, hchar, ?_, ?_⟩
  · intro h
    unfold process_zillow_data
    rw [if_pos h]
  · intro h
    rw [hchar h]
    unfold lastContrib
    cases hlc : (t.rows.filter
        (fun r => zfill5 r.regionName == z && (r.cells (currCol t)).isSome)).getLast? with
    | some r =>
        simp only [Option.isSome_some, true_iff]
        have hmem := List.mem_of_mem_getLast? (by rw [hlc]; rfl)
        have := List.mem_filter.mp hmem
        obtain ⟨hzr, hsr⟩ := by simpa [Bool.and_eq_true] using this.2
        exact ⟨r, this.1, by simpa using hzr, hsr⟩
    | none =>
        simp only [Option.isSome_none, Bool.false_eq_true, false_iff]
        rintro ⟨r, hr, hzr, hsr⟩
        have hfl := List.getLast?_eq_none_iff.mp hlc
        have : r ∈ t.rows.filter
            (fun r => zfill5 r.regionName == z && (r.cells (currCol t)).isSome) :=
          List.mem_filter.mpr ⟨hr, by simp [hzr, hsr]⟩
        rw [hfl] at this
        cases this
  · intro val cmp
    constructor
    · cases cmp with
      | none => simp [ratioOrNone]
      | some q => by_cases hq : q = 0 <;> simp [ratioOrNone, hq]
    · intro hc
      rw [hc]
      rfl

/-- C10 witness: the example table has 13 date columns and its single
key's entry is characterised by `process_zillow_amended`. -/
theorem process_zillow_amended_witness :
    ¬ (dateColsOf exZillowTable).length < 13
    ∧ alookup (process_zillow_data exZillowTable) "00123"
        = match lastContrib exZillowTable (currCol exZillowTable) "00123" with
          | some r => some (mkZillowEntry (momCol exZillowTable) (yoyCol exZillowTable) r
              ((r.cells (currCol exZillowTable)).getD 0))
          | Option.none => Option.none :=
  ⟨by decide, (process_zillow_amended exZillowTable "00123").2.1 (by decide)⟩

/-- C10 counterexample: in the example table the previous-month cell of
the only row is NaN, and the produced `zhvi_mom` is NaN (`some none`),
not Python `None` as the claim states. -/
theorem zillow_nan_mom_counterexample :
    (exZillowTable.rows.getD 0 { regionName := "", cells := fun _ => Option.none }).cells
        (momCol exZillowTable) = Option.none
    ∧ (alookup (process_zillow_data exZillowTable) "00123").map ZillowEntry.zhvi_mom
        = some (some Option.none)
    ∧ (some (Option.none : Option ℚ) : Option (Option ℚ)) ≠ Option.none := by
  refine ⟨by decide, by decide, by simp⟩

end Domapus
